import Mathlib

/-!
Verification development for the EM2-audio repository.

Part 1 embeds the signal-detection analysis pipeline shared by
`find_compression_rate/dprime_complete.py` and
`experiment/control_experiment/data_detection/andet_mystik/personal_data/analyse.py`:
per-stratum hit and false-alarm rates, the 0/1 edge correction feeding the
d-prime computation, the chi-square-from-rates construction, and the
significance markers.  Machine floats are idealized as rationals; the
standard-normal quantile function (scipy norm.ppf) is an abstract parameter
with an extended-value codomain, and the chi-square survival function an
abstract parameter returning a rational p value.
-/

/-- One input row of the analyzer.  The analysis reads only the
`compression_level` and `trial_outcome` columns of the concatenated CSVs. -/
structure Row where
  compressionLevel : String
  trialOutcome : String
deriving DecidableEq

/-- The rows of one stratum: `df_rate = df[df["compression_level"] == rate]`. -/
def strat (rows : List Row) (lvl : String) : List Row :=
  rows.filter (fun r => r.compressionLevel == lvl)

/-- Number of rows whose outcome equals `o`:
`len(df_rate[df_rate["trial_outcome"] == o])`. -/
def countOutcome (rows : List Row) (o : String) : Nat :=
  (rows.filter (fun r => r.trialOutcome == o)).length

/-- From the source: `hit_rate = len(df_rate[df_rate["trial_outcome"] == "Hit"]) / len(df_rate)`. -/
def hit_rate (rows : List Row) (lvl : String) : ℚ :=
  (countOutcome (strat rows lvl) "Hit" : ℚ) / ((strat rows lvl).length : ℚ)

/-- From the source:
`false_alarm_rate = len(df_rate[df_rate["trial_outcome"] == "False Alarm"]) / len(df_rate)`. -/
def false_alarm_rate (rows : List Row) (lvl : String) : ℚ :=
  (countOutcome (strat rows lvl) "False Alarm" : ℚ) / ((strat rows lvl).length : ℚ)

/-- Number of signal-present trials recorded in a stratum (outcome Hit or Miss);
used to state the spec claims, the code itself never computes this. -/
def presentCount (rows : List Row) (lvl : String) : Nat :=
  countOutcome (strat rows lvl) "Hit" + countOutcome (strat rows lvl) "Miss"

/-- Number of signal-absent trials recorded in a stratum
(outcome False Alarm or Correct Rejection). -/
def absentCount (rows : List Row) (lvl : String) : Nat :=
  countOutcome (strat rows lvl) "False Alarm" +
    countOutcome (strat rows lvl) "Correct Rejection"

/-- Helper for `uniqueLevels`, carrying the set of levels already emitted. -/
def uniqueLevelsAux (seen : List String) : List Row → List String
  | [] => []
  | r :: rs =>
      if r.compressionLevel ∈ seen then uniqueLevelsAux seen rs
      else r.compressionLevel :: uniqueLevelsAux (r.compressionLevel :: seen) rs

/-- From the source: `df["compression_level"].unique()` — the distinct stratum
keys in order of first appearance. -/
def uniqueLevels (rows : List Row) : List String :=
  uniqueLevelsAux [] rows

/-- From the source (`dprime`), the sequential 0/1 edge correction applied to a
rate before the inverse-normal transform:
`if rate == 1: rate = 1 - 1/(2*n)` then `if rate == 0: rate = 1/(2*n)`. -/
def correctRate (r n : ℚ) : ℚ :=
  let r1 := if r = 1 then 1 - 1 / (2 * n) else r
  if r1 = 0 then 1 / (2 * n) else r1

/-- Extended value of a machine-float computation: finite (idealized as a
rational), an infinity, or NaN.  Used as the codomain of the abstract
standard-normal quantile function. -/
inductive FVal where
  | nan : FVal
  | negInf : FVal
  | posInf : FVal
  | fin : ℚ → FVal
deriving DecidableEq

/-- Float subtraction on extended values (IEEE-754 semantics: any operation
with NaN gives NaN, opposite infinities subtract to an infinity, equal
infinities give NaN). -/
def FVal.sub : FVal → FVal → FVal
  | .nan, _ => .nan
  | _, .nan => .nan
  | .posInf, .posInf => .nan
  | .negInf, .negInf => .nan
  | .posInf, _ => .posInf
  | .negInf, _ => .negInf
  | .fin _, .posInf => .negInf
  | .fin _, .negInf => .posInf
  | .fin a, .fin b => .fin (a - b)

/-- Whether an extended value is finite (neither NaN nor an infinity). -/
def FVal.isFinite : FVal → Bool
  | .fin _ => true
  | _ => false

/-- From the source (`dprime`): corrects both rates and returns
`norm.ppf(hit_rate) - norm.ppf(fa_rate)`, with the quantile function `ppf`
abstract. -/
def dprime (ppf : ℚ → FVal) (hitRate faRate nTrials : ℚ) : FVal :=
  FVal.sub (ppf (correctRate hitRate nTrials)) (ppf (correctRate faRate nTrials))

/-- One Yates-corrected Pearson term `(max(0, |obs - exp| - 1/2))^2 / exp`,
written exactly as scipy adjusts the observed value toward the expected one by
`min(1/2, |obs - exp|)`. -/
def yatesTerm (o e : ℚ) : ℚ :=
  let diff := |o - e|
  let adj := min (1 / 2) diff
  (diff - adj) ^ 2 / e

/-- Embedding of `scipy.stats.chi2_contingency` on a 2x2 table
`[[a, b], [c, d]]` with its default Yates continuity correction (the table has
one degree of freedom): expected frequencies come from the marginals, a
negative entry or a zero expected frequency raises (modelled as `none`), and
the statistic is the sum of the four corrected Pearson terms. -/
def chi2_contingency_2x2 (a b c d : ℚ) : Option ℚ :=
  if a < 0 ∨ b < 0 ∨ c < 0 ∨ d < 0 then none
  else
    let total := a + b + c + d
    let e11 := (a + b) * (a + c) / total
    let e12 := (a + b) * (b + d) / total
    let e21 := (c + d) * (a + c) / total
    let e22 := (c + d) * (b + d) / total
    if e11 = 0 ∨ e12 = 0 ∨ e21 = 0 ∨ e22 = 0 then none
    else some (yatesTerm a e11 + yatesTerm b e12 + yatesTerm c e21 + yatesTerm d e22)

/-- From the source (`chi_square_from_rates`): builds the observed table
`[[hit_rate*n_signal, (1-hit_rate)*n_signal], [fa_rate*n_noise, (1-fa_rate)*n_noise]]`
with `n_signal = n_noise = n_trials / 2` and hands it to `chi2_contingency`,
returning `(chi2, p)` where `p` is the chi-square survival function `sf` of the
statistic. -/
def chi_square_from_rates (sf : ℚ → ℚ) (hitRate faRate nTrials : ℚ) : Option (ℚ × ℚ) :=
  let nSignal := nTrials / 2
  let nNoise := nTrials / 2
  (chi2_contingency_2x2 (hitRate * nSignal) ((1 - hitRate) * nSignal)
      (faRate * nNoise) ((1 - faRate) * nNoise)).map (fun chi2 => (chi2, sf chi2))

/-- Modelled from the spec sentence for the chi-square test: a 2x2 contingency
table with rows signal and noise and columns detected and not-detected, whose
cell counts are `hitRate*nSignal`, `(1-hitRate)*nSignal`, `faRate*nNoise`,
`(1-faRate)*nNoise` with `nSignal = nNoise = n/2`. -/
def chiSquareSpecTable (hitRate faRate nTrials : ℚ) : (ℚ × ℚ) × (ℚ × ℚ) :=
  let nSignal := nTrials / 2
  let nNoise := nTrials / 2
  ((hitRate * nSignal, (1 - hitRate) * nSignal),
   (faRate * nNoise, (1 - faRate) * nNoise))

/-- Modelled from the spec sentence: apply the Yates-corrected Pearson
chi-square independence test to the spec table and report `chi2` and `p`. -/
def chiSquareSpec (sf : ℚ → ℚ) (hitRate faRate nTrials : ℚ) : Option (ℚ × ℚ) :=
  let t := chiSquareSpecTable hitRate faRate nTrials
  (chi2_contingency_2x2 t.1.1 t.1.2 t.2.1 t.2.2).map (fun chi2 => (chi2, sf chi2))

/-- From `analyse.py` (`signif_marker`): the three-tier significance marker. -/
def signif_marker (p : ℚ) : String :=
  if p < 1 / 1000 then "***"
  else if p < 1 / 100 then "**"
  else if p < 1 / 20 then "*"
  else ""

/-- From `dprime_complete.py` (`signif_marker`): the two-tier significance
marker used by the find_compression_rate analysis variant. -/
def signif_marker_complete (p : ℚ) : String :=
  if p < 1 / 1000 then "**"
  else if p < 1 / 20 then "*"
  else ""

/-- One output row of `compute_rate_results`, keeping the numeric quantities
the claims are about: the raw rates, the stratum size used as `n_trials`, and
the corrected rates the d-prime computation feeds to the quantile function. -/
structure StratumResult where
  compressionRate : String
  hitRate : ℚ
  faRate : ℚ
  nTrials : Nat
  correctedHitRate : ℚ
  correctedFaRate : ℚ
deriving DecidableEq

/-- From the source (`compute_rate_results`): for each unique compression
level, the stratum rows are selected, the hit and false-alarm rates computed
over them, and `dprime`/`chi_square_from_rates` called with
`n_trials = len(df_rate)`. -/
def compute_rate_results (rows : List Row) : List StratumResult :=
  (uniqueLevels rows).map (fun lvl =>
    { compressionRate := lvl
      hitRate := hit_rate rows lvl
      faRate := false_alarm_rate rows lvl
      nTrials := (strat rows lvl).length
      correctedHitRate := correctRate (hit_rate rows lvl) ((strat rows lvl).length : ℚ)
      correctedFaRate := correctRate (false_alarm_rate rows lvl) ((strat rows lvl).length : ℚ) })

/-!
Part 2 embeds the trial-list generators: `generate_trial_lists` of
`experiment/control_experiment/d-prime_detection.py` and
`main_typing_experiment.py`, `generate_trial_list` of
`experiment/experiment/forced_choice.py`, and the per-trial mask selection of
`experiment/gemini_code_v1.py`.  Randomness is explicit: every
`random.choice` call receives its own index into the list it draws from,
every `random.shuffle` is a caller-supplied reordering function constrained
to be a permutation where a theorem needs it, and the retry loops of
forced_choice.py consume an index stream under a fuel bound (exhausted fuel,
i.e. a non-terminating retry loop, yields `none`).
-/

/-- Whether a filename is hidden (starts with a dot), as tested by
`f.startswith('.')`. -/
def isHidden (f : String) : Bool :=
  match f.toList with
  | [] => false
  | c :: _ => c = '.'

/-- From the sources (`get_files_from_dir`): the non-hidden entries of a
directory listing are the usable asset files. -/
def get_files_from_dir (listing : List String) : List String :=
  listing.filter (fun f => !isHidden f)

/-- Index of the last occurrence of a character, if any. -/
def lastIdxOf (c : Char) : List Char → Option Nat
  | [] => none
  | a :: l =>
      match lastIdxOf c l with
      | some i => some (i + 1)
      | none => if a = c then some 0 else none

/-- Root part of `os.path.splitext`: everything before the last dot, unless
every character before that dot is itself a dot (then there is no extension). -/
def splitextRoot (s : String) : String :=
  let cs := s.toList
  match lastIdxOf '.' cs with
  | none => s
  | some i =>
      if (cs.take i).any (fun c => !(c == '.')) then String.mk (cs.take i) else s

/-- The characters before the first underscore (the whole list when there is
none): `split('_')[0]`. -/
def takeUntilUnderscore : List Char → List Char
  | [] => []
  | c :: cs => if c = '_' then [] else c :: takeUntilUnderscore cs

/-- From the sources (`get_word_from_filename`): strip the extension and take
the text before the first underscore. -/
def get_word_from_filename (f : String) : String :=
  String.mk (takeUntilUnderscore (splitextRoot f).toList)

/-- Model of `random.choice(l)`: the draw is an arbitrary index reduced
modulo the list length. -/
def pyChoice (l : List String) (i : Nat) : String :=
  l.getD (i % l.length) ""

/-- Model of the redraw-on-collision loop
`x = random.choice(l); while x == avoid: x = random.choice(l)` — successive
draws come from the index stream `s`; a loop that never leaves the collision
within `fuel` draws is `none`. -/
def redrawNe (avoid : String) (l : List String) : (Nat → Nat) → Nat → Option String
  | _, 0 => none
  | s, fuel + 1 =>
      let c := pyChoice l (s 0)
      if c = avoid then redrawNe avoid l (fun k => s (k + 1)) fuel else some c

/-- A trial dictionary built by `generate_trial_lists` of d-prime_detection.py. -/
structure DTrial where
  signalType : String
  compressionLevel : String
  primeFile : String
  correctWord : String
  babblingFile : String
  mask1File : String
  mask2File : String
deriving DecidableEq

/-- Constant `COMPRESSION_LEVELS` of d-prime_detection.py. -/
def COMPRESSION_LEVELS_DET : List String :=
  ["0.1", "0.2", "0.3", "0.4", "0.5", "0.6", "0.7"]

/-- Constant `N_PRACTICE_REPS_PER_LEVEL` of d-prime_detection.py. -/
def N_PRACTICE_REPS_PER_LEVEL : Nat := 1

/-- Constant `N_MAIN_REPS_PER_LEVEL` of d-prime_detection.py. -/
def N_MAIN_REPS_PER_LEVEL : Nat := 7

/-- A signal-present detection trial: the prime file is the word file, the
babble and the two masks are independent `random.choice` draws. -/
def dPresent (lvl f : String) (bab masks : List String) (p : Nat × Nat × Nat) : DTrial :=
  { signalType := "present"
    compressionLevel := lvl
    primeFile := f
    correctWord := get_word_from_filename f
    babblingFile := pyChoice bab p.1
    mask1File := pyChoice masks p.2.1
    mask2File := pyChoice masks p.2.2 }

/-- A signal-absent detection trial (`prime_file = "SILENCE"`). -/
def dAbsent (lvl : String) (bab masks : List String) (p : Nat × Nat × Nat) : DTrial :=
  { signalType := "absent"
    compressionLevel := lvl
    primeFile := "SILENCE"
    correctWord := "NA"
    babblingFile := pyChoice bab p.1
    mask1File := pyChoice masks p.2.1
    mask2File := pyChoice masks p.2.2 }

/-- The trials appended for one list of word files of one level: each file
yields a signal-present trial followed by a signal-absent trial.  `picks j b`
supplies the three draw indices of the j-th file's present (`b = false`) or
absent (`b = true`) trial. -/
def dBlock (lvl : String) (bab masks : List String)
    (picks : Nat → Bool → Nat × Nat × Nat) : Nat → List String → List DTrial
  | _, [] => []
  | j, f :: fs =>
      dPresent lvl f bab masks (picks j false) ::
        dAbsent lvl bab masks (picks j true) ::
          dBlock lvl bab masks picks (j + 1) fs

/-- The per-level loop of `generate_trial_lists` (detection): check the
folder has enough usable files, shuffle it, slice practice and main word
files, and append the trials of each phase. -/
def dLevelLists (folders : String → List String)
    (σlvl : String → List String → List String) (bab masks : List String)
    (picks : String → Bool → Nat → Bool → Nat × Nat × Nat) :
    List String → Option (List DTrial × List DTrial)
  | [] => some ([], [])
  | lvl :: rest =>
      let files := get_files_from_dir (folders lvl)
      if files.length < N_PRACTICE_REPS_PER_LEVEL + N_MAIN_REPS_PER_LEVEL then none
      else
        let shuffled := σlvl lvl files
        let practiceFiles := shuffled.take N_PRACTICE_REPS_PER_LEVEL
        let mainFiles := (shuffled.drop N_PRACTICE_REPS_PER_LEVEL).take N_MAIN_REPS_PER_LEVEL
        (dLevelLists folders σlvl bab masks picks rest).map
          (fun pm => (dBlock lvl bab masks (picks lvl false) 0 practiceFiles ++ pm.1,
                      dBlock lvl bab masks (picks lvl true) 0 mainFiles ++ pm.2))

/-- From d-prime_detection.py (`generate_trial_lists`): empty babbling or
mask pools abort; otherwise the per-level trials are built and both lists
receive a final shuffle.  `core.quit()` aborts are modelled as `none`. -/
def generate_trial_lists_detection (folders : String → List String)
    (babblingDir masksDir : List String)
    (σlvl : String → List String → List String)
    (σpractice σmain : List DTrial → List DTrial)
    (picks : String → Bool → Nat → Bool → Nat × Nat × Nat) :
    Option (List DTrial × List DTrial) :=
  let babbling := get_files_from_dir babblingDir
  let masks := get_files_from_dir masksDir
  if babbling = [] ∨ masks = [] then none
  else
    (dLevelLists folders σlvl babbling masks picks COMPRESSION_LEVELS_DET).map
      (fun pm => (σpractice pm.1, σmain pm.2))

/-- A trial dictionary built by `generate_trial_lists` of
main_typing_experiment.py (always signal-present, typed-answer design). -/
structure TTrial where
  compressionLevel : String
  primeFile : String
  correctWord : String
  babblingFile : String
  mask1File : String
  mask2File : String
deriving DecidableEq

/-- Constant `COMPRESSION_LEVELS` of main_typing_experiment.py. -/
def COMPRESSION_LEVELS_TYP : List String :=
  ["0.1", "0.2", "0.3", "0.4", "0.5", "0.6", "0.7", "0.8"]

/-- Constant `N_PRACTICE_WORDS_PER_FOLDER` of main_typing_experiment.py. -/
def N_PRACTICE_WORDS_PER_FOLDER : Nat := 1

/-- Constant `N_MAIN_WORDS_PER_FOLDER` of main_typing_experiment.py. -/
def N_MAIN_WORDS_PER_FOLDER : Nat := 1

/-- One typing trial for a word file. -/
def tTrial (lvl f : String) (bab masks : List String) (p : Nat × Nat × Nat) : TTrial :=
  { compressionLevel := lvl
    primeFile := f
    correctWord := get_word_from_filename f
    babblingFile := pyChoice bab p.1
    mask1File := pyChoice masks p.2.1
    mask2File := pyChoice masks p.2.2 }

/-- The trials appended for one list of word files of one level (typing). -/
def tBlock (lvl : String) (bab masks : List String)
    (picks : Nat → Nat × Nat × Nat) : Nat → List String → List TTrial
  | _, [] => []
  | j, f :: fs => tTrial lvl f bab masks (picks j) :: tBlock lvl bab masks picks (j + 1) fs

/-- The per-level loop of `generate_trial_lists` (typing). -/
def tLevelLists (folders : String → List String)
    (σlvl : String → List String → List String) (bab masks : List String)
    (picks : String → Bool → Nat → Nat × Nat × Nat) :
    List String → Option (List TTrial × List TTrial)
  | [] => some ([], [])
  | lvl :: rest =>
      let files := get_files_from_dir (folders lvl)
      if files.length < N_PRACTICE_WORDS_PER_FOLDER + N_MAIN_WORDS_PER_FOLDER then none
      else
        let shuffled := σlvl lvl files
        let practiceFiles := shuffled.take N_PRACTICE_WORDS_PER_FOLDER
        let mainFiles := (shuffled.drop N_PRACTICE_WORDS_PER_FOLDER).take N_MAIN_WORDS_PER_FOLDER
        (tLevelLists folders σlvl bab masks picks rest).map
          (fun pm => (tBlock lvl bab masks (picks lvl false) 0 practiceFiles ++ pm.1,
                      tBlock lvl bab masks (picks lvl true) 0 mainFiles ++ pm.2))

/-- From main_typing_experiment.py (`generate_trial_lists`). -/
def generate_trial_lists_typing (folders : String → List String)
    (babblingDir masksDir : List String)
    (σlvl : String → List String → List String)
    (σpractice σmain : List TTrial → List TTrial)
    (picks : String → Bool → Nat → Nat × Nat × Nat) :
    Option (List TTrial × List TTrial) :=
  let babbling := get_files_from_dir babblingDir
  let masks := get_files_from_dir masksDir
  if babbling = [] ∨ masks = [] then none
  else
    (tLevelLists folders σlvl babbling masks picks COMPRESSION_LEVELS_TYP).map
      (fun pm => (σpractice pm.1, σmain pm.2))

/-- A prime entry of forced_choice.py: `{'file': f, 'valence': v, 'word': w}`. -/
structure PrimeEntry where
  file : String
  valence : String
  word : String
deriving DecidableEq

/-- A trial dictionary built by `generate_trial_list` of forced_choice.py. -/
structure FTrial where
  trialI : Nat
  primeFile : String
  primeValence : String
  correctWord : String
  distractorWord : String
  babblingFile : String
  mask1File : String
  mask2File : String
deriving DecidableEq

/-- Constant `N_POS_PRIMES` of forced_choice.py. -/
def N_POS_PRIMES : Nat := 4

/-- Constant `N_NEG_PRIMES` of forced_choice.py. -/
def N_NEG_PRIMES : Nat := 3

/-- Constant `N_NEU_PRIMES` of forced_choice.py. -/
def N_NEU_PRIMES : Nat := 3

/-- Constant `N_TOTAL_TRIALS` of forced_choice.py (2 practice + 8 main). -/
def N_TOTAL_TRIALS_FC : Nat := 10

/-- Helper for `dedupFirst`, carrying the words already emitted. -/
def dedupFirstAux (seen : List String) : List String → List String
  | [] => []
  | w :: ws =>
      if w ∈ seen then dedupFirstAux seen ws
      else w :: dedupFirstAux (w :: seen) ws

/-- Model of `list(set(...))` in the master word-list construction: the
distinct elements (a Python set is unordered; only membership and size
matter downstream, the order here is first occurrence). -/
def dedupFirst (l : List String) : List String :=
  dedupFirstAux [] l

/-- Model of `random.choices(files, k=k)` followed by the entry-building
loop: `k` independent draws with replacement, each an arbitrary index. -/
def fcChoices (files : List String) (valence : String) (pick : Nat → Nat)
    (k : Nat) : List PrimeEntry :=
  (List.range k).map (fun j =>
    { file := pyChoice files (pick j)
      valence := valence
      word := get_word_from_filename (pyChoice files (pick j)) })

/-- One iteration of the forced_choice.py trial-building loop: draw mask1,
redraw mask2 until it differs from mask1, take the i-th prime entry, redraw
the distractor word until it differs from the correct word, and assemble the
trial dictionary. -/
def fcTrial (primeList : List PrimeEntry) (words bab masks : List String)
    (i m1 bpick : Nat) (m2s ds : Nat → Nat) (fuel : Nat) : Option FTrial :=
  let m1f := pyChoice masks m1
  (redrawNe m1f masks m2s fuel).bind (fun m2f =>
    let e := primeList.getD i { file := "", valence := "", word := "" }
    (redrawNe e.word words ds fuel).map (fun dw =>
      { trialI := i + 1
        primeFile := e.file
        primeValence := e.valence
        correctWord := e.word
        distractorWord := dw
        babblingFile := pyChoice bab bpick
        mask1File := m1f
        mask2File := m2f }))

/-- The `for i in range(N_TOTAL_TRIALS)` loop collecting the generated
trials; a failing iteration fails the whole build. -/
def buildTrials (f : Nat → Option FTrial) : List Nat → Option (List FTrial)
  | [] => some []
  | i :: is => (f i).bind (fun t => (buildTrials f is).map (fun ts => t :: ts))

/-- From forced_choice.py (`generate_trial_list`): load the five asset pools
(abort on an empty one), build the master distractor word list (abort when it
has fewer than two words), draw the ten prime entries with replacement,
shuffle them, build the ten trials, and shuffle the result. -/
def generate_trial_list_fc (posDir negDir neuDir babDir maskDir : List String)
    (posPick negPick neuPick : Nat → Nat)
    (σprimes : List PrimeEntry → List PrimeEntry)
    (m1Pick bPick : Nat → Nat) (m2Seq dSeq : Nat → Nat → Nat) (fuel : Nat)
    (σfinal : List FTrial → List FTrial) : Option (List FTrial) :=
  let pos := get_files_from_dir posDir
  let neg := get_files_from_dir negDir
  let neu := get_files_from_dir neuDir
  let bab := get_files_from_dir babDir
  let masks := get_files_from_dir maskDir
  if pos = [] ∨ neg = [] ∨ neu = [] ∨ bab = [] ∨ masks = [] then none
  else
    let allPrimeWords := dedupFirst ((pos ++ neg ++ neu).map get_word_from_filename)
    if allPrimeWords.length < 2 then none
    else
      let primeList := σprimes
        (fcChoices pos "positive" posPick N_POS_PRIMES ++
          fcChoices neg "negative" negPick N_NEG_PRIMES ++
            fcChoices neu "neutral" neuPick N_NEU_PRIMES)
      (buildTrials
          (fun i => fcTrial primeList allPrimeWords bab masks i
            (m1Pick i) (bPick i) (m2Seq i) (dSeq i) fuel)
          (List.range N_TOTAL_TRIALS_FC)).map σfinal

/-- From gemini_code_v1.py (`run_trial`): mask1 is a free `random.choice`
over the mask files; mask2 is a `random.choice` over the mask files that
differ from mask1 (an empty filtered list would raise — modelled `none`). -/
def gemini_trial_masks (maskFiles : List String) (p1 p2 : Nat) :
    Option (String × String) :=
  if maskFiles = [] then none
  else
    let m1 := pyChoice maskFiles p1
    let rest := maskFiles.filter (fun f => !(f == m1))
    if rest = [] then none
    else some (m1, pyChoice rest p2)

/-! ### Claim observables on generator outputs -/

/-- The prime files of the signal-present trials of one stratum of a
detection trial list. -/
def dPresentPrimes (ts : List DTrial) (lvl : String) : List String :=
  (ts.filter (fun t => t.signalType == "present" && t.compressionLevel == lvl)).map
    DTrial.primeFile

/-- The prime files of one stratum of a typing trial list. -/
def tPrimes (ts : List TTrial) (lvl : String) : List String :=
  (ts.filter (fun t => t.compressionLevel == lvl)).map TTrial.primeFile

/-- The prime files of one valence stratum of a forced-choice trial list. -/
def fPrimes (ts : List FTrial) (valence : String) : List String :=
  (ts.filter (fun t => t.primeValence == valence)).map FTrial.primeFile

/-- Whether, in a detection generator result, some produced trial carries the
same file as mask1 and mask2 (`false` also when generation failed). -/
def someEqualMasksD (o : Option (List DTrial × List DTrial)) : Bool :=
  match o with
  | none => false
  | some (pl, ml) => (pl ++ ml).any (fun t => t.mask1File == t.mask2File)

/-- Whether every trial of a forced-choice generator result has two distinct
masks (vacuously true when generation failed). -/
def masksDistinctFC (o : Option (List FTrial)) : Bool :=
  match o with
  | none => true
  | some ts => ts.all (fun t => !(t.mask1File == t.mask2File))

/-- Whether every trial of a forced-choice generator result has a distractor
word different from its correct word (vacuously true when generation
failed). -/
def distractorsDistinctFC (o : Option (List FTrial)) : Bool :=
  match o with
  | none => true
  | some ts => ts.all (fun t => !(t.distractorWord == t.correctWord))

/-- Whether, in a detection generator result, the prime files of one stratum
are pairwise distinct across the practice and main lists combined
(vacuously true when generation failed). -/
def primesNodupD (o : Option (List DTrial × List DTrial)) (lvl : String) : Bool :=
  match o with
  | none => true
  | some (pl, ml) => decide (dPresentPrimes pl lvl ++ dPresentPrimes ml lvl).Nodup

/-- Whether, in a typing generator result, the prime files of one stratum are
pairwise distinct across the practice and main lists combined. -/
def primesNodupT (o : Option (List TTrial × List TTrial)) (lvl : String) : Bool :=
  match o with
  | none => true
  | some (pl, ml) => decide (tPrimes pl lvl ++ tPrimes ml lvl).Nodup

/-- Whether, in a forced-choice generator result, the prime files of one
valence stratum are pairwise distinct. -/
def primesNodupFC (o : Option (List FTrial)) (valence : String) : Bool :=
  match o with
  | none => true
  | some ts => decide (fPrimes ts valence).Nodup

/-! ### Helper lemmas for the analysis pipeline -/

lemma mem_uniqueLevelsAux {lvl : String} :
    ∀ (rows : List Row) (seen : List String), lvl ∈ uniqueLevelsAux seen rows →
      ∃ r ∈ rows, r.compressionLevel = lvl := by
  intro rows
  induction rows with
  | nil => intro seen h; simp [uniqueLevelsAux] at h
  | cons r rs ih =>
      intro seen h
      unfold uniqueLevelsAux at h
      by_cases hs : r.compressionLevel ∈ seen
      · rw [if_pos hs] at h
        obtain ⟨r', hr', he⟩ := ih seen h
        exact ⟨r', List.mem_cons_of_mem _ hr', he⟩
      · rw [if_neg hs] at h
        rcases List.mem_cons.mp h with hhead | htail
        · exact ⟨r, List.mem_cons_self _ _, hhead.symm⟩
        · obtain ⟨r', hr', he⟩ := ih _ htail
          exact ⟨r', List.mem_cons_of_mem _ hr', he⟩

lemma mem_uniqueLevels_exists {rows : List Row} {lvl : String}
    (h : lvl ∈ uniqueLevels rows) : ∃ r ∈ rows, r.compressionLevel = lvl :=
  mem_uniqueLevelsAux rows [] h

lemma strat_length_pos {rows : List Row} {lvl : String}
    (h : lvl ∈ uniqueLevels rows) : 0 < (strat rows lvl).length := by
  obtain ⟨r, hr, he⟩ := mem_uniqueLevels_exists h
  have : r ∈ strat rows lvl := by
    refine List.mem_filter.mpr ⟨hr, ?_⟩
    simp [he]
  exact List.length_pos.mpr (List.ne_nil_of_mem this)

lemma countOutcome_eq_count (l : List Row) (o : String) :
    countOutcome l o = (l.map Row.trialOutcome).count o := by
  rw [countOutcome, List.count_eq_countP, List.countP_map, ← List.countP_eq_length_filter]
  rfl

lemma half_inv_le_half {n : ℚ} (hn : 1 ≤ n) : 1 / (2 * n) ≤ 1 / 2 := by
  rw [div_le_div_iff₀ (by linarith) (by norm_num)]
  linarith

lemma half_inv_pos {n : ℚ} (hn : 1 ≤ n) : 0 < 1 / (2 * n) := by
  positivity

lemma correctRate_eq_cases (r : ℚ) {n : ℚ} (hn : 1 ≤ n) :
    correctRate r n =
      if r = 1 then 1 - 1 / (2 * n) else if r = 0 then 1 / (2 * n) else r := by
  have hle := half_inv_le_half hn
  simp only [correctRate]
  by_cases h1 : r = 1
  · rw [if_pos h1, if_neg (show ¬(1 - 1 / (2 * n) = 0) by intro h; linarith), if_pos h1]
  · rw [if_neg h1, if_neg h1]

lemma correctRate_interior {r : ℚ} (h0 : 0 < r) (h1 : r < 1) (n : ℚ) :
    correctRate r n = r := by
  simp only [correctRate]
  rw [if_neg (show ¬r = 1 by intro h; rw [h] at h1; exact lt_irrefl 1 h1)]
  rw [if_neg (show ¬r = 0 by intro h; rw [h] at h0; exact lt_irrefl 0 h0)]

lemma correctRate_mem_Ioo {r n : ℚ} (hr0 : 0 ≤ r) (hr1 : r ≤ 1) (hn : 1 ≤ n) :
    0 < correctRate r n ∧ correctRate r n < 1 := by
  have hle := half_inv_le_half hn
  have hpos := half_inv_pos hn
  rw [correctRate_eq_cases r hn]
  by_cases h1 : r = 1
  · rw [if_pos h1]
    constructor <;> linarith
  · rw [if_neg h1]
    by_cases h0 : r = 0
    · rw [if_pos h0]
      constructor <;> linarith
    · rw [if_neg h0]
      exact ⟨lt_of_le_of_ne hr0 (Ne.symm h0), lt_of_le_of_ne hr1 h1⟩

lemma FVal.isFinite_sub {x y : FVal} (hx : x.isFinite = true) (hy : y.isFinite = true) :
    (FVal.sub x y).isFinite = true := by
  cases x <;> cases y <;> simp_all [FVal.isFinite, FVal.sub]

/-! ### Claims about the analysis pipeline -/

/-- Claim C1, counterexample: the code divides the Hit count by the total
number of rows of the stratum, not by the number of signal-present trials.
On a stratum with one Hit and one Correct Rejection the code reports a hit
rate of 1/2 while the claimed ratio count(Hit)/count(present) is 1. -/
theorem c1_rates_counterexample :
    (compute_rate_results
        [⟨"0.3", "Hit"⟩, ⟨"0.3", "Correct Rejection"⟩]).map StratumResult.hitRate
      = [1/2] ∧
    (countOutcome (strat [⟨"0.3", "Hit"⟩, ⟨"0.3", "Correct Rejection"⟩] "0.3") "Hit" : ℚ) /
      (presentCount [⟨"0.3", "Hit"⟩, ⟨"0.3", "Correct Rejection"⟩] "0.3" : ℚ) = 1 ∧
    ((1 : ℚ)/2) ≠ 1 := by
  refine ⟨?_, ?_, by norm_num⟩
  · simp [compute_rate_results, uniqueLevels, uniqueLevelsAux, strat, countOutcome,
      hit_rate, false_alarm_rate, correctRate, List.filter_cons]
  · simp [presentCount, strat, countOutcome, List.filter_cons]

/-- Claim C1 (amended): for every stratum key present in the input rows,
`compute_rate_results` computes the hit rate as count(Hit) divided by the
total number of trials of the stratum and the false-alarm rate as
count(False Alarm) divided by that same total, not by the signal-present and
signal-absent counts. -/
theorem c1_rates_amended (rows : List Row) (lvl : String)
    (h : lvl ∈ uniqueLevels rows) :
    ∃ res ∈ compute_rate_results rows, res.compressionRate = lvl ∧
      res.hitRate =
        (((strat rows lvl).map Row.trialOutcome).count "Hit" : ℚ) / (res.nTrials : ℚ) ∧
      res.faRate =
        (((strat rows lvl).map Row.trialOutcome).count "False Alarm" : ℚ) / (res.nTrials : ℚ) := by
  refine ⟨_, List.mem_map_of_mem _ h, rfl, ?_, ?_⟩
  · show hit_rate rows lvl =
      (((strat rows lvl).map Row.trialOutcome).count "Hit" : ℚ) / ((strat rows lvl).length : ℚ)
    rw [hit_rate, countOutcome_eq_count]
  · show false_alarm_rate rows lvl =
      (((strat rows lvl).map Row.trialOutcome).count "False Alarm" : ℚ) / ((strat rows lvl).length : ℚ)
    rw [false_alarm_rate, countOutcome_eq_count]

/-- Witness for the amended claim C1 at a concrete one-row input. -/
theorem c1_rates_witness :
    ∃ res ∈ compute_rate_results [⟨"0.5", "Hit"⟩], res.compressionRate = "0.5" ∧
      res.hitRate =
        (((strat [⟨"0.5", "Hit"⟩] "0.5").map Row.trialOutcome).count "Hit" : ℚ) / (res.nTrials : ℚ) ∧
      res.faRate =
        (((strat [⟨"0.5", "Hit"⟩] "0.5").map Row.trialOutcome).count "False Alarm" : ℚ) / (res.nTrials : ℚ) :=
  c1_rates_amended [⟨"0.5", "Hit"⟩] "0.5" (by decide)

/-- Claim C2, counterexample: the correction divisor N is the total stratum
trial count handed to `dprime` as `n_trials`, not the signal-present count.
On a stratum of four trials with one Miss and three Correct Rejections the
hit rate is 0, the code replaces it by 1/(2*4) = 1/8, while the claimed
replacement 1/(2N) with N the signal-present count (= 1) is 1/2. -/
theorem c2_correction_counterexample :
    (compute_rate_results
        [⟨"0.5", "Miss"⟩, ⟨"0.5", "Correct Rejection"⟩,
         ⟨"0.5", "Correct Rejection"⟩, ⟨"0.5", "Correct Rejection"⟩]).map
        StratumResult.correctedHitRate = [1/8] ∧
    presentCount
        [⟨"0.5", "Miss"⟩, ⟨"0.5", "Correct Rejection"⟩,
         ⟨"0.5", "Correct Rejection"⟩, ⟨"0.5", "Correct Rejection"⟩] "0.5" = 1 ∧
    ((1 : ℚ)/8) ≠ 1/(2 * 1) := by
  refine ⟨?_, ?_, by norm_num⟩
  · simp [compute_rate_results, uniqueLevels, uniqueLevelsAux, strat, countOutcome,
      hit_rate, false_alarm_rate, correctRate, List.filter_cons]
    norm_num
  · simp [presentCount, strat, countOutcome, List.filter_cons]

/-- Claim C2 (amended): before the inverse-normal transform, a rate equal to
1 is replaced by 1 - 1/(2N), a rate equal to 0 by 1/(2N), and a rate strictly
between 0 and 1 is left unchanged, where N is the total number of trials of
the stratum (the denominator the code actually uses for both rates). -/
theorem c2_correction_amended (rows : List Row) (lvl : String)
    (h : lvl ∈ uniqueLevels rows) :
    ∃ res ∈ compute_rate_results rows, res.compressionRate = lvl ∧
      res.correctedHitRate =
        (if res.hitRate = 1 then 1 - 1/(2 * (res.nTrials : ℚ))
         else if res.hitRate = 0 then 1/(2 * (res.nTrials : ℚ)) else res.hitRate) ∧
      res.correctedFaRate =
        (if res.faRate = 1 then 1 - 1/(2 * (res.nTrials : ℚ))
         else if res.faRate = 0 then 1/(2 * (res.nTrials : ℚ)) else res.faRate) := by
  have hn : (1 : ℚ) ≤ ((strat rows lvl).length : ℚ) := by
    exact_mod_cast strat_length_pos h
  exact ⟨_, List.mem_map_of_mem _ h, rfl, correctRate_eq_cases _ hn, correctRate_eq_cases _ hn⟩

/-- Witness for the amended claim C2 at a concrete one-row input (hit rate
exactly 1, false-alarm rate exactly 0, one trial). -/
theorem c2_correction_witness :
    ∃ res ∈ compute_rate_results [⟨"0.3", "Hit"⟩], res.compressionRate = "0.3" ∧
      res.correctedHitRate =
        (if res.hitRate = 1 then 1 - 1/(2 * (res.nTrials : ℚ))
         else if res.hitRate = 0 then 1/(2 * (res.nTrials : ℚ)) else res.hitRate) ∧
      res.correctedFaRate =
        (if res.faRate = 1 then 1 - 1/(2 * (res.nTrials : ℚ))
         else if res.faRate = 0 then 1/(2 * (res.nTrials : ℚ)) else res.faRate) :=
  c2_correction_amended [⟨"0.3", "Hit"⟩] "0.3" (by decide)

/-- Claim C3: for every quantile function finite on the open unit interval,
every hit and false-alarm rate in [0,1] and every trial count N at least 1,
the value of `dprime` is finite — the corrected rates always land strictly
between 0 and 1. -/
theorem c3_dprime_finite (ppf : ℚ → FVal)
    (hppf : ∀ x : ℚ, 0 < x → x < 1 → (ppf x).isFinite = true)
    (hitRate faRate : ℚ) (hh0 : 0 ≤ hitRate) (hh1 : hitRate ≤ 1)
    (hf0 : 0 ≤ faRate) (hf1 : faRate ≤ 1) (n : Nat) (hn : 1 ≤ n) :
    (dprime ppf hitRate faRate (n : ℚ)).isFinite = true := by
  have hnq : (1 : ℚ) ≤ (n : ℚ) := by exact_mod_cast hn
  obtain ⟨a1, a2⟩ := correctRate_mem_Ioo hh0 hh1 hnq
  obtain ⟨b1, b2⟩ := correctRate_mem_Ioo hf0 hf1 hnq
  exact FVal.isFinite_sub (hppf _ a1 a2) (hppf _ b1 b2)

/-- Witness for claim C3 at the extreme input hitRate = 1, faRate = 0, N = 1. -/
theorem c3_dprime_finite_witness :
    (dprime (fun _ => FVal.fin 0) 1 0 ((1 : Nat) : ℚ)).isFinite = true :=
  c3_dprime_finite (fun _ => FVal.fin 0) (fun _ _ _ => rfl) 1 0
    (by norm_num) (by norm_num) (by norm_num) (by norm_num) 1 (by norm_num)

/-- Claim C4: `chi_square_from_rates` builds exactly the 2x2 contingency
table the spec describes (cells rate-times-half-the-trial-count, with
nSignal = nNoise = n/2), applies the Yates-corrected Pearson chi-square
independence test to it, and returns the resulting chi2 and p values. -/
theorem c4_chi_square_refinement (sf : ℚ → ℚ) (hitRate faRate nTrials : ℚ) :
    chi_square_from_rates sf hitRate faRate nTrials =
      chiSquareSpec sf hitRate faRate nTrials := rfl

/-- Claim C5, counterexample: the find_compression_rate analysis variant uses
a two-tier marker scheme; at p = 1/200 (which satisfies 0.001 <= p < 0.01)
it returns a single asterisk, not the claimed double asterisk. -/
theorem c5_marker_counterexample : signif_marker_complete (1/200) ≠ "**" := by
  norm_num [signif_marker_complete]
  decide

/-- Claim C5 (amended): the three-tier scheme (p<0.001 three asterisks,
p<0.01 two, p<0.05 one, else none) holds for the analyse.py variant; the
dprime_complete.py variant uses the coarser two-tier scheme p<0.001 two
asterisks, p<0.05 one, else none. -/
theorem c5_marker_amended (p : ℚ) :
    (p < 1/1000 → signif_marker p = "***" ∧ signif_marker_complete p = "**") ∧
    (1/1000 ≤ p → p < 1/100 → signif_marker p = "**") ∧
    (1/100 ≤ p → p < 1/20 → signif_marker p = "*") ∧
    (1/1000 ≤ p → p < 1/20 → signif_marker_complete p = "*") ∧
    (1/20 ≤ p → signif_marker p = "" ∧ signif_marker_complete p = "") := by
  refine ⟨fun h1 => ⟨?_, ?_⟩, fun h1 h2 => ?_, fun h1 h2 => ?_, fun h1 h2 => ?_,
    fun h1 => ⟨?_, ?_⟩⟩
  · unfold signif_marker; rw [if_pos h1]
  · unfold signif_marker_complete; rw [if_pos h1]
  · unfold signif_marker; rw [if_neg (not_lt.mpr h1), if_pos h2]
  · unfold signif_marker
    rw [if_neg (not_lt.mpr (by linarith)), if_neg (not_lt.mpr h1), if_pos h2]
  · unfold signif_marker_complete; rw [if_neg (not_lt.mpr h1), if_pos h2]
  · unfold signif_marker
    rw [if_neg (not_lt.mpr (by linarith)), if_neg (not_lt.mpr (by linarith)),
      if_neg (not_lt.mpr h1)]
  · unfold signif_marker_complete
    rw [if_neg (not_lt.mpr (by linarith)), if_neg (not_lt.mpr h1)]

/-- Witness for the amended claim C5 at p = 1/200. -/
theorem c5_marker_witness :
    signif_marker (1/200) = "**" ∧ signif_marker_complete (1/200) = "*" :=
  ⟨(c5_marker_amended (1/200)).2.1 (by norm_num) (by norm_num),
   (c5_marker_amended (1/200)).2.2.2.1 (by norm_num) (by norm_num)⟩

/-- Claim C10: when both rates are strictly between 0 and 1, the edge
correction never fires, so `dprime` does not depend on its `n_trials`
argument. -/
theorem c10_ntrials_invariant (ppf : ℚ → FVal) (hitRate faRate : ℚ)
    (hh0 : 0 < hitRate) (hh1 : hitRate < 1) (hf0 : 0 < faRate) (hf1 : faRate < 1)
    (n1 n2 : Nat) (_hn1 : 1 ≤ n1) (_hn2 : 1 ≤ n2) :
    dprime ppf hitRate faRate (n1 : ℚ) = dprime ppf hitRate faRate (n2 : ℚ) := by
  unfold dprime
  rw [correctRate_interior hh0 hh1, correctRate_interior hh0 hh1,
    correctRate_interior hf0 hf1, correctRate_interior hf0 hf1]

/-- Witness for claim C10 at interior rates 1/2 and 1/3 with trial counts 3
and 7. -/
theorem c10_ntrials_invariant_witness :
    dprime (fun q => FVal.fin q) (1/2) (1/3) ((3 : Nat) : ℚ) =
      dprime (fun q => FVal.fin q) (1/2) (1/3) ((7 : Nat) : ℚ) :=
  c10_ntrials_invariant _ _ _ (by norm_num) (by norm_num) (by norm_num) (by norm_num)
    3 7 (by norm_num) (by norm_num)

/-! ### Helper lemmas for the trial-list generators -/

lemma pyChoice_mem {l : List String} (h : l ≠ []) (i : Nat) : pyChoice l i ∈ l := by
  have hlen : 0 < l.length := List.length_pos.mpr h
  have hmod : i % l.length < l.length := Nat.mod_lt _ hlen
  rw [pyChoice, List.getD_eq_getElem l "" hmod]
  exact List.getElem_mem hmod

lemma redrawNe_ne {avoid : String} {l : List String} :
    ∀ (fuel : Nat) (s : Nat → Nat) {c : String},
      redrawNe avoid l s fuel = some c → c ≠ avoid := by
  intro fuel
  induction fuel with
  | zero => intro s c h; simp [redrawNe] at h
  | succ n ih =>
      intro s c h
      simp only [redrawNe] at h
      by_cases hc : pyChoice l (s 0) = avoid
      · rw [if_pos hc] at h
        exact ih _ h
      · rw [if_neg hc] at h
        injection h with h'
        rw [← h']
        exact hc

lemma fcTrial_fields {primeList : List PrimeEntry} {words bab masks : List String}
    {i m1 bp : Nat} {m2s ds : Nat → Nat} {fuel : Nat} {t : FTrial}
    (h : fcTrial primeList words bab masks i m1 bp m2s ds fuel = some t) :
    t.mask2File ≠ t.mask1File ∧ t.distractorWord ≠ t.correctWord := by
  simp only [fcTrial] at h
  obtain ⟨m2f, hm2, hmap⟩ := Option.bind_eq_some.mp h
  obtain ⟨dw, hdw, ht⟩ := Option.map_eq_some'.mp hmap
  subst ht
  exact ⟨redrawNe_ne _ _ hm2, redrawNe_ne _ _ hdw⟩

lemma buildTrials_mem {f : Nat → Option FTrial} :
    ∀ {l : List Nat} {ts : List FTrial}, buildTrials f l = some ts →
      ∀ {t : FTrial}, t ∈ ts → ∃ i ∈ l, f i = some t := by
  intro l
  induction l with
  | nil =>
      intro ts h t ht
      simp only [buildTrials, Option.some.injEq] at h
      subst h
      simp at ht
  | cons i is ih =>
      intro ts h t ht
      simp only [buildTrials] at h
      obtain ⟨t0, hf0, hmap⟩ := Option.bind_eq_some.mp h
      obtain ⟨ts0, hb0, hts⟩ := Option.map_eq_some'.mp hmap
      subst hts
      rcases List.mem_cons.mp ht with rfl | hmem
      · exact ⟨i, List.mem_cons_self _ _, hf0⟩
      · obtain ⟨j, hj, hfj⟩ := ih hb0 hmem
        exact ⟨j, List.mem_cons_of_mem _ hj, hfj⟩

lemma masksDistinct_of_buildTrials {f : Nat → Option FTrial} {l : List Nat}
    (hf : ∀ i t, f i = some t → t.mask1File ≠ t.mask2File)
    {σ : List FTrial → List FTrial} (hσ : ∀ l', (σ l').Perm l') :
    masksDistinctFC ((buildTrials f l).map σ) = true := by
  cases hb : buildTrials f l with
  | none => simp [masksDistinctFC]
  | some ts =>
      simp only [Option.map_some', masksDistinctFC, List.all_eq_true]
      intro t ht
      obtain ⟨i, _, hfi⟩ := buildTrials_mem hb (((hσ ts).mem_iff).mp ht)
      simpa using hf i t hfi

lemma distractorsDistinct_of_buildTrials {f : Nat → Option FTrial} {l : List Nat}
    (hf : ∀ i t, f i = some t → t.distractorWord ≠ t.correctWord)
    {σ : List FTrial → List FTrial} (hσ : ∀ l', (σ l').Perm l') :
    distractorsDistinctFC ((buildTrials f l).map σ) = true := by
  cases hb : buildTrials f l with
  | none => simp [distractorsDistinctFC]
  | some ts =>
      simp only [Option.map_some', distractorsDistinctFC, List.all_eq_true]
      intro t ht
      obtain ⟨i, _, hfi⟩ := buildTrials_mem hb (((hσ ts).mem_iff).mp ht)
      simpa using hf i t hfi

lemma dLevelLists_eq_none {folders : String → List String}
    {σlvl : String → List String → List String} {bab masks : List String}
    {picks : String → Bool → Nat → Bool → Nat × Nat × Nat} {lvl : String}
    (hshort : (get_files_from_dir (folders lvl)).length <
      N_PRACTICE_REPS_PER_LEVEL + N_MAIN_REPS_PER_LEVEL) :
    ∀ ls : List String, lvl ∈ ls →
      dLevelLists folders σlvl bab masks picks ls = none := by
  intro ls
  induction ls with
  | nil => intro h; simp at h
  | cons l rest ih =>
      intro h
      simp only [dLevelLists]
      rcases List.mem_cons.mp h with rfl | hmem
      · rw [if_pos hshort]
      · by_cases hl : (get_files_from_dir (folders l)).length <
            N_PRACTICE_REPS_PER_LEVEL + N_MAIN_REPS_PER_LEVEL
        · rw [if_pos hl]
        · rw [if_neg hl, ih hmem]
          rfl

lemma tLevelLists_eq_none {folders : String → List String}
    {σlvl : String → List String → List String} {bab masks : List String}
    {picks : String → Bool → Nat → Nat × Nat × Nat} {lvl : String}
    (hshort : (get_files_from_dir (folders lvl)).length <
      N_PRACTICE_WORDS_PER_FOLDER + N_MAIN_WORDS_PER_FOLDER) :
    ∀ ls : List String, lvl ∈ ls →
      tLevelLists folders σlvl bab masks picks ls = none := by
  intro ls
  induction ls with
  | nil => intro h; simp at h
  | cons l rest ih =>
      intro h
      simp only [tLevelLists]
      rcases List.mem_cons.mp h with rfl | hmem
      · rw [if_pos hshort]
      · by_cases hl : (get_files_from_dir (folders l)).length <
            N_PRACTICE_WORDS_PER_FOLDER + N_MAIN_WORDS_PER_FOLDER
        · rw [if_pos hl]
        · rw [if_neg hl, ih hmem]
          rfl

/-! ### Claims about the trial-list generators -/

/-- Claim C6, counterexample: the detection generator draws mask1 and mask2
as two independent `random.choice` calls with no inequality constraint; with
a single-file mask pool every generated trial gets the same file for both
masks, so a generator that requires two mask draws can produce
mask1 = mask2. -/
theorem c6_masks_counterexample :
    someEqualMasksD (generate_trial_lists_detection
      (fun _ => ["f1", "f2", "f3", "f4", "f5", "f6", "f7", "f8"]) ["b"] ["m"]
      (fun _ l => l) id id (fun _ _ _ _ => (0, 0, 0))) = true := by decide

/-- Claim C6 (amended): mask1 and mask2 always differ in the forced_choice
generator (redraw-on-collision loop) and in gemini_code_v1's per-trial mask
selection (choice over the masks different from mask1); the detection and
typing generators draw the two masks independently and do not enforce this. -/
theorem c6_masks_amended :
    (∀ (posDir negDir neuDir babDir maskDir : List String)
        (posPick negPick neuPick : Nat → Nat)
        (σprimes : List PrimeEntry → List PrimeEntry)
        (m1Pick bPick : Nat → Nat) (m2Seq dSeq : Nat → Nat → Nat) (fuel : Nat)
        (σfinal : List FTrial → List FTrial), (∀ l, (σfinal l).Perm l) →
        masksDistinctFC (generate_trial_list_fc posDir negDir neuDir babDir maskDir
          posPick negPick neuPick σprimes m1Pick bPick m2Seq dSeq fuel σfinal) = true) ∧
    (∀ (maskFiles : List String) (p1 p2 : Nat) (m1 m2 : String),
        gemini_trial_masks maskFiles p1 p2 = some (m1, m2) → m2 ≠ m1) := by
  constructor
  · intro posDir negDir neuDir babDir maskDir posPick negPick neuPick σprimes
      m1Pick bPick m2Seq dSeq fuel σfinal hσ
    simp only [generate_trial_list_fc]
    split
    · rfl
    · split
      · rfl
      · exact masksDistinct_of_buildTrials
          (fun i t h => ((fcTrial_fields h).1).symm) hσ
  · intro maskFiles p1 p2 m1 m2 h
    simp only [gemini_trial_masks] at h
    split at h
    · simp at h
    · split at h
      · simp at h
      · rename_i hrest
        simp only [Option.some.injEq, Prod.mk.injEq] at h
        obtain ⟨h1, h2⟩ := h
        subst h1
        subst h2
        simpa using (List.mem_filter.mp (pyChoice_mem hrest p2)).2

/-- Witness for the amended claim C6: a concrete forced-choice generation
with two mask files that succeeds (the first conjunct shows the result is
`some`, so the mask property is checked on ten actually produced trials),
and a concrete gemini mask pair. -/
theorem c6_masks_witness :
    (generate_trial_list_fc ["p.w"] ["n.w"] ["u.w"] ["b"] ["m1", "m2"]
      (fun _ => 0) (fun _ => 0) (fun _ => 0) id (fun _ => 0) (fun _ => 0)
      (fun _ _ => 1) (fun _ k => k) 3 id).isSome = true ∧
    masksDistinctFC (generate_trial_list_fc ["p.w"] ["n.w"] ["u.w"] ["b"] ["m1", "m2"]
      (fun _ => 0) (fun _ => 0) (fun _ => 0) id (fun _ => 0) (fun _ => 0)
      (fun _ _ => 1) (fun _ k => k) 3 id) = true ∧
    ("m2" : String) ≠ "m1" :=
  ⟨by decide,
   c6_masks_amended.1 _ _ _ _ _ _ _ _ _ _ _ _ _ _ _ (fun l => List.Perm.refl l),
   c6_masks_amended.2 ["m1", "m2"] 0 0 "m1" "m2" (by decide)⟩

/-- Claim C7: in the forced-choice generator, whenever the master prime-word
list has at least two distinct words (the generator aborts otherwise), every
generated trial's distractor word differs from its correct word, because the
distractor is redrawn until it leaves the correct word. -/
theorem c7_distractor_ne (posDir negDir neuDir babDir maskDir : List String)
    (posPick negPick neuPick : Nat → Nat)
    (σprimes : List PrimeEntry → List PrimeEntry)
    (m1Pick bPick : Nat → Nat) (m2Seq dSeq : Nat → Nat → Nat) (fuel : Nat)
    (σfinal : List FTrial → List FTrial) (hσ : ∀ l, (σfinal l).Perm l)
    (_hwords : 2 ≤ (dedupFirst ((get_files_from_dir posDir ++ get_files_from_dir negDir ++
        get_files_from_dir neuDir).map get_word_from_filename)).length) :
    distractorsDistinctFC (generate_trial_list_fc posDir negDir neuDir babDir maskDir
      posPick negPick neuPick σprimes m1Pick bPick m2Seq dSeq fuel σfinal) = true := by
  simp only [generate_trial_list_fc]
  split
  · rfl
  · split
    · rfl
    · exact distractorsDistinct_of_buildTrials (fun i t h => (fcTrial_fields h).2) hσ

/-- Witness for claim C7 at a concrete forced-choice generation with three
distinct prime words; the generation succeeds (first conjunct), so the
distractor property is checked on ten actually produced trials. -/
theorem c7_distractor_ne_witness :
    (generate_trial_list_fc ["p.w"] ["n.w"] ["u.w"] ["b"] ["m1", "m2"]
      (fun _ => 0) (fun _ => 0) (fun _ => 0) id (fun _ => 0) (fun _ => 0)
      (fun _ _ => 1) (fun _ k => k) 3 id).isSome = true ∧
    distractorsDistinctFC (generate_trial_list_fc ["p.w"] ["n.w"] ["u.w"] ["b"] ["m1", "m2"]
      (fun _ => 0) (fun _ => 0) (fun _ => 0) id (fun _ => 0) (fun _ => 0)
      (fun _ _ => 1) (fun _ k => k) 3 id) = true :=
  ⟨by decide,
   c7_distractor_ne _ _ _ _ _ _ _ _ _ _ _ _ _ _ _ (fun l => List.Perm.refl l) (by decide)⟩

/-- Claim C8: in the detection and typing generators, a stratum folder with
fewer usable files than the practice-plus-main requirement aborts generation:
no trial-list pair at all is returned. -/
theorem c8_insufficient_assets_abort :
    (∀ (folders : String → List String) (babblingDir masksDir : List String)
        (σlvl : String → List String → List String)
        (σpractice σmain : List DTrial → List DTrial)
        (picks : String → Bool → Nat → Bool → Nat × Nat × Nat) (lvl : String),
        lvl ∈ COMPRESSION_LEVELS_DET →
        (get_files_from_dir (folders lvl)).length <
          N_PRACTICE_REPS_PER_LEVEL + N_MAIN_REPS_PER_LEVEL →
        generate_trial_lists_detection folders babblingDir masksDir σlvl
          σpractice σmain picks = none) ∧
    (∀ (folders : String → List String) (babblingDir masksDir : List String)
        (σlvl : String → List String → List String)
        (σpractice σmain : List TTrial → List TTrial)
        (picks : String → Bool → Nat → Nat × Nat × Nat) (lvl : String),
        lvl ∈ COMPRESSION_LEVELS_TYP →
        (get_files_from_dir (folders lvl)).length <
          N_PRACTICE_WORDS_PER_FOLDER + N_MAIN_WORDS_PER_FOLDER →
        generate_trial_lists_typing folders babblingDir masksDir σlvl
          σpractice σmain picks = none) := by
  constructor
  · intro folders babblingDir masksDir σlvl σpractice σmain picks lvl hmem hshort
    simp only [generate_trial_lists_detection]
    split
    · rfl
    · rw [dLevelLists_eq_none hshort _ hmem]
      rfl
  · intro folders babblingDir masksDir σlvl σpractice σmain picks lvl hmem hshort
    simp only [generate_trial_lists_typing]
    split
    · rfl
    · rw [tLevelLists_eq_none hshort _ hmem]
      rfl

/-- Witness for claim C8: one-file stratum folders abort both generators. -/
theorem c8_insufficient_assets_witness :
    generate_trial_lists_detection (fun _ => ["a"]) ["b"] ["m"] (fun _ l => l)
      id id (fun _ _ _ _ => (0, 0, 0)) = none ∧
    generate_trial_lists_typing (fun _ => []) ["b"] ["m"] (fun _ l => l)
      id id (fun _ _ _ => (0, 0, 0)) = none :=
  ⟨c8_insufficient_assets_abort.1 _ _ _ _ _ _ _ "0.1" (by decide) (by decide),
   c8_insufficient_assets_abort.2 _ _ _ _ _ _ _ "0.1" (by decide) (by decide)⟩

lemma dPresentPrimes_append (l1 l2 : List DTrial) (lvl : String) :
    dPresentPrimes (l1 ++ l2) lvl = dPresentPrimes l1 lvl ++ dPresentPrimes l2 lvl := by
  simp [dPresentPrimes, List.filter_append]

lemma dBlock_primes_self (lvl : String) (bab masks : List String)
    (picks : Nat → Bool → Nat × Nat × Nat) :
    ∀ (j : Nat) (fs : List String),
      dPresentPrimes (dBlock lvl bab masks picks j fs) lvl = fs := by
  intro j fs
  induction fs generalizing j with
  | nil => rfl
  | cons f fs ih =>
      simp [dBlock, dPresentPrimes, dPresent, dAbsent, List.filter_cons,
        String.reduceBEq, ih (j + 1)]
      exact (ih (j + 1))

lemma dBlock_level (lvl : String) (bab masks : List String)
    (picks : Nat → Bool → Nat × Nat × Nat) :
    ∀ (j : Nat) (fs : List String) {t : DTrial},
      t ∈ dBlock lvl bab masks picks j fs → t.compressionLevel = lvl := by
  intro j fs
  induction fs generalizing j with
  | nil => intro t ht; simp [dBlock] at ht
  | cons f fs ih =>
      intro t ht
      simp only [dBlock, List.mem_cons] at ht
      rcases ht with rfl | rfl | hmem
      · rfl
      · rfl
      · exact ih (j + 1) hmem

lemma dBlock_primes_other {lvl' lvl : String} (h : lvl' ≠ lvl) (bab masks : List String)
    (picks : Nat → Bool → Nat × Nat × Nat) (j : Nat) (fs : List String) :
    dPresentPrimes (dBlock lvl bab masks picks j fs) lvl' = [] := by
  have hfil : (dBlock lvl bab masks picks j fs).filter
      (fun t => t.signalType == "present" && t.compressionLevel == lvl') = [] := by
    refine List.filter_eq_nil_iff.mpr ?_
    intro t ht
    have hl := dBlock_level lvl bab masks picks j fs ht
    simp [hl, Ne.symm h]
  simp [dPresentPrimes, hfil]

lemma dLevelLists_primes_not_mem {folders : String → List String}
    {σlvl : String → List String → List String} {bab masks : List String}
    {picks : String → Bool → Nat → Bool → Nat × Nat × Nat} {lvl : String} :
    ∀ {ls : List String} {pr mr : List DTrial}, lvl ∉ ls →
      dLevelLists folders σlvl bab masks picks ls = some (pr, mr) →
      dPresentPrimes pr lvl = [] ∧ dPresentPrimes mr lvl = [] := by
  intro ls
  induction ls with
  | nil =>
      intro pr mr _ h
      simp only [dLevelLists] at h
      injection h with h'
      injection h' with h1 h2
      exact ⟨by rw [← h1]; rfl, by rw [← h2]; rfl⟩
  | cons l rest ih =>
      intro pr mr hnot h
      simp only [dLevelLists] at h
      split at h
      · simp at h
      · obtain ⟨pm, hrest, heq⟩ := Option.map_eq_some'.mp h
        injection heq with e1 e2
        have hne : lvl ≠ l := fun hh => hnot (hh ▸ List.mem_cons_self _ _)
        have hrest' : lvl ∉ rest := fun hh => hnot (List.mem_cons_of_mem _ hh)
        obtain ⟨ih1, ih2⟩ := ih hrest' hrest
        constructor
        · rw [← e1, dPresentPrimes_append, dBlock_primes_other hne, ih1]
          rfl
        · rw [← e2, dPresentPrimes_append, dBlock_primes_other hne, ih2]
          rfl

lemma dLevelLists_primes {folders : String → List String}
    {σlvl : String → List String → List String} {bab masks : List String}
    {picks : String → Bool → Nat → Bool → Nat × Nat × Nat} :
    ∀ {ls : List String} {pr mr : List DTrial}, ls.Nodup →
      dLevelLists folders σlvl bab masks picks ls = some (pr, mr) →
      ∀ lvl ∈ ls,
        dPresentPrimes pr lvl =
          (σlvl lvl (get_files_from_dir (folders lvl))).take N_PRACTICE_REPS_PER_LEVEL ∧
        dPresentPrimes mr lvl =
          ((σlvl lvl (get_files_from_dir (folders lvl))).drop
            N_PRACTICE_REPS_PER_LEVEL).take N_MAIN_REPS_PER_LEVEL := by
  intro ls
  induction ls with
  | nil => intro pr mr _ _ lvl hmem; simp at hmem
  | cons l rest ih =>
      intro pr mr hnd h lvl hmem
      simp only [dLevelLists] at h
      split at h
      · simp at h
      · obtain ⟨pm, hrest, heq⟩ := Option.map_eq_some'.mp h
        injection heq with e1 e2
        rw [List.nodup_cons] at hnd
        obtain ⟨hlnot, hndrest⟩ := hnd
        rcases List.mem_cons.mp hmem with rfl | hmemr
        · obtain ⟨z1, z2⟩ := dLevelLists_primes_not_mem hlnot hrest
          constructor
          · rw [← e1, dPresentPrimes_append, dBlock_primes_self, z1, List.append_nil]
          · rw [← e2, dPresentPrimes_append, dBlock_primes_self, z2, List.append_nil]
        · have hne : lvl ≠ l := fun hh => hlnot (hh ▸ hmemr)
          obtain ⟨i1, i2⟩ := ih hndrest hrest lvl hmemr
          constructor
          · rw [← e1, dPresentPrimes_append, dBlock_primes_other hne, i1, List.nil_append]
          · rw [← e2, dPresentPrimes_append, dBlock_primes_other hne, i2, List.nil_append]

lemma tPrimes_append (l1 l2 : List TTrial) (lvl : String) :
    tPrimes (l1 ++ l2) lvl = tPrimes l1 lvl ++ tPrimes l2 lvl := by
  simp [tPrimes, List.filter_append]

lemma tBlock_primes_self (lvl : String) (bab masks : List String)
    (picks : Nat → Nat × Nat × Nat) :
    ∀ (j : Nat) (fs : List String),
      tPrimes (tBlock lvl bab masks picks j fs) lvl = fs := by
  intro j fs
  induction fs generalizing j with
  | nil => rfl
  | cons f fs ih =>
      simp [tBlock, tPrimes, tTrial, List.filter_cons]
      exact (ih (j + 1))

lemma tBlock_level (lvl : String) (bab masks : List String)
    (picks : Nat → Nat × Nat × Nat) :
    ∀ (j : Nat) (fs : List String) {t : TTrial},
      t ∈ tBlock lvl bab masks picks j fs → t.compressionLevel = lvl := by
  intro j fs
  induction fs generalizing j with
  | nil => intro t ht; simp [tBlock] at ht
  | cons f fs ih =>
      intro t ht
      simp only [tBlock, List.mem_cons] at ht
      rcases ht with rfl | hmem
      · rfl
      · exact ih (j + 1) hmem

lemma tBlock_primes_other {lvl' lvl : String} (h : lvl' ≠ lvl) (bab masks : List String)
    (picks : Nat → Nat × Nat × Nat) (j : Nat) (fs : List String) :
    tPrimes (tBlock lvl bab masks picks j fs) lvl' = [] := by
  have hfil : (tBlock lvl bab masks picks j fs).filter
      (fun t => t.compressionLevel == lvl') = [] := by
    refine List.filter_eq_nil_iff.mpr ?_
    intro t ht
    have hl := tBlock_level lvl bab masks picks j fs ht
    simp [hl, Ne.symm h]
  simp [tPrimes, hfil]

lemma tLevelLists_primes_not_mem {folders : String → List String}
    {σlvl : String → List String → List String} {bab masks : List String}
    {picks : String → Bool → Nat → Nat × Nat × Nat} {lvl : String} :
    ∀ {ls : List String} {pr mr : List TTrial}, lvl ∉ ls →
      tLevelLists folders σlvl bab masks picks ls = some (pr, mr) →
      tPrimes pr lvl = [] ∧ tPrimes mr lvl = [] := by
  intro ls
  induction ls with
  | nil =>
      intro pr mr _ h
      simp only [tLevelLists] at h
      injection h with h'
      injection h' with h1 h2
      exact ⟨by rw [← h1]; rfl, by rw [← h2]; rfl⟩
  | cons l rest ih =>
      intro pr mr hnot h
      simp only [tLevelLists] at h
      split at h
      · simp at h
      · obtain ⟨pm, hrest, heq⟩ := Option.map_eq_some'.mp h
        injection heq with e1 e2
        have hne : lvl ≠ l := fun hh => hnot (hh ▸ List.mem_cons_self _ _)
        have hrest' : lvl ∉ rest := fun hh => hnot (List.mem_cons_of_mem _ hh)
        obtain ⟨ih1, ih2⟩ := ih hrest' hrest
        constructor
        · rw [← e1, tPrimes_append, tBlock_primes_other hne, ih1]
          rfl
        · rw [← e2, tPrimes_append, tBlock_primes_other hne, ih2]
          rfl

lemma tLevelLists_primes {folders : String → List String}
    {σlvl : String → List String → List String} {bab masks : List String}
    {picks : String → Bool → Nat → Nat × Nat × Nat} :
    ∀ {ls : List String} {pr mr : List TTrial}, ls.Nodup →
      tLevelLists folders σlvl bab masks picks ls = some (pr, mr) →
      ∀ lvl ∈ ls,
        tPrimes pr lvl =
          (σlvl lvl (get_files_from_dir (folders lvl))).take N_PRACTICE_WORDS_PER_FOLDER ∧
        tPrimes mr lvl =
          ((σlvl lvl (get_files_from_dir (folders lvl))).drop
            N_PRACTICE_WORDS_PER_FOLDER).take N_MAIN_WORDS_PER_FOLDER := by
  intro ls
  induction ls with
  | nil => intro pr mr _ _ lvl hmem; simp at hmem
  | cons l rest ih =>
      intro pr mr hnd h lvl hmem
      simp only [tLevelLists] at h
      split at h
      · simp at h
      · obtain ⟨pm, hrest, heq⟩ := Option.map_eq_some'.mp h
        injection heq with e1 e2
        rw [List.nodup_cons] at hnd
        obtain ⟨hlnot, hndrest⟩ := hnd
        rcases List.mem_cons.mp hmem with rfl | hmemr
        · obtain ⟨z1, z2⟩ := tLevelLists_primes_not_mem hlnot hrest
          constructor
          · rw [← e1, tPrimes_append, tBlock_primes_self, z1, List.append_nil]
          · rw [← e2, tPrimes_append, tBlock_primes_self, z2, List.append_nil]
        · have hne : lvl ≠ l := fun hh => hlnot (hh ▸ hmemr)
          obtain ⟨i1, i2⟩ := ih hndrest hrest lvl hmemr
          constructor
          · rw [← e1, tPrimes_append, tBlock_primes_other hne, i1, List.nil_append]
          · rw [← e2, tPrimes_append, tBlock_primes_other hne, i2, List.nil_append]

/-- Claim C9, counterexample: the forced-choice generator draws its prime
files with `random.choices` (with replacement); with a draw stream that
always picks the first positive file, that file appears four times across
the combined trial list, so a prime file is reused within the positive
stratum. -/
theorem c9_primes_counterexample :
    primesNodupFC (generate_trial_list_fc ["a.w", "b.w"] ["c.w"] ["d.w"] ["bb"] ["m1", "m2"]
      (fun _ => 0) (fun _ => 0) (fun _ => 0) id (fun _ => 0) (fun _ => 0)
      (fun _ _ => 1) (fun _ k => k) 3 id) "positive" = false := by decide

/-- Claim C9 (amended): the detection and typing generators draw prime files
without replacement within a stratum — each level's folder is shuffled once
and the practice and main files are disjoint slices of it — so a prime file
appears at most once across the two phases; the forced-choice generator
instead uses `random.choices` (with replacement) and may repeat a prime. -/
theorem c9_primes_amended :
    (∀ (folders : String → List String) (babblingDir masksDir : List String)
        (σlvl : String → List String → List String)
        (σpractice σmain : List DTrial → List DTrial)
        (picks : String → Bool → Nat → Bool → Nat × Nat × Nat),
        (∀ lvl l, (σlvl lvl l).Perm l) →
        (∀ l, (σpractice l).Perm l) → (∀ l, (σmain l).Perm l) →
        (∀ lvl, (get_files_from_dir (folders lvl)).Nodup) →
        ∀ lvl, primesNodupD (generate_trial_lists_detection folders babblingDir
          masksDir σlvl σpractice σmain picks) lvl = true) ∧
    (∀ (folders : String → List String) (babblingDir masksDir : List String)
        (σlvl : String → List String → List String)
        (σpractice σmain : List TTrial → List TTrial)
        (picks : String → Bool → Nat → Nat × Nat × Nat),
        (∀ lvl l, (σlvl lvl l).Perm l) →
        (∀ l, (σpractice l).Perm l) → (∀ l, (σmain l).Perm l) →
        (∀ lvl, (get_files_from_dir (folders lvl)).Nodup) →
        ∀ lvl, primesNodupT (generate_trial_lists_typing folders babblingDir
          masksDir σlvl σpractice σmain picks) lvl = true) := by
  constructor
  · intro folders babblingDir masksDir σlvl σpractice σmain picks hσl hσp hσm hfold lvl
    simp only [generate_trial_lists_detection]
    split
    · rfl
    · cases hd : dLevelLists folders σlvl (get_files_from_dir babblingDir)
          (get_files_from_dir masksDir) picks COMPRESSION_LEVELS_DET with
      | none => rfl
      | some pm =>
          simp only [Option.map_some', primesNodupD, decide_eq_true_eq]
          have hperm : ((dPresentPrimes (σpractice pm.1) lvl) ++
              (dPresentPrimes (σmain pm.2) lvl)).Perm
              ((dPresentPrimes pm.1 lvl) ++ (dPresentPrimes pm.2 lvl)) :=
            List.Perm.append (((hσp pm.1).filter _).map _) (((hσm pm.2).filter _).map _)
          refine (hperm.nodup_iff).mpr ?_
          by_cases hmem : lvl ∈ COMPRESSION_LEVELS_DET
          · obtain ⟨hp, hm⟩ := dLevelLists_primes (by decide) hd lvl hmem
            rw [hp, hm, ← List.take_add]
            have hσn : (σlvl lvl (get_files_from_dir (folders lvl))).Nodup :=
              ((hσl lvl _).nodup_iff).mpr (hfold lvl)
            exact (List.take_sublist _ _).nodup hσn
          · obtain ⟨hp, hm⟩ := dLevelLists_primes_not_mem hmem hd
            rw [hp, hm]
            simp
  · intro folders babblingDir masksDir σlvl σpractice σmain picks hσl hσp hσm hfold lvl
    simp only [generate_trial_lists_typing]
    split
    · rfl
    · cases hd : tLevelLists folders σlvl (get_files_from_dir babblingDir)
          (get_files_from_dir masksDir) picks COMPRESSION_LEVELS_TYP with
      | none => rfl
      | some pm =>
          simp only [Option.map_some', primesNodupT, decide_eq_true_eq]
          have hperm : ((tPrimes (σpractice pm.1) lvl) ++ (tPrimes (σmain pm.2) lvl)).Perm
              ((tPrimes pm.1 lvl) ++ (tPrimes pm.2 lvl)) :=
            List.Perm.append (((hσp pm.1).filter _).map _) (((hσm pm.2).filter _).map _)
          refine (hperm.nodup_iff).mpr ?_
          by_cases hmem : lvl ∈ COMPRESSION_LEVELS_TYP
          · obtain ⟨hp, hm⟩ := tLevelLists_primes (by decide) hd lvl hmem
            rw [hp, hm, ← List.take_add]
            have hσn : (σlvl lvl (get_files_from_dir (folders lvl))).Nodup :=
              ((hσl lvl _).nodup_iff).mpr (hfold lvl)
            exact (List.take_sublist _ _).nodup hσn
          · obtain ⟨hp, hm⟩ := tLevelLists_primes_not_mem hmem hd
            rw [hp, hm]
            simp

/-- Witness for the amended claim C9: concrete detection and typing
generations with identity shuffles and duplicate-free folders. -/
theorem c9_primes_witness :
    primesNodupD (generate_trial_lists_detection
      (fun _ => ["f1", "f2", "f3", "f4", "f5", "f6", "f7", "f8"]) ["b"] ["m"]
      (fun _ l => l) id id (fun _ _ _ _ => (0, 0, 0))) "0.1" = true ∧
    primesNodupT (generate_trial_lists_typing
      (fun _ => ["a", "b"]) ["b"] ["m"]
      (fun _ l => l) id id (fun _ _ _ => (0, 0, 0))) "0.1" = true :=
  ⟨c9_primes_amended.1 _ _ _ _ _ _ _ (fun _ l => List.Perm.refl l)
      (fun l => List.Perm.refl l) (fun l => List.Perm.refl l) (fun _ => by decide) "0.1",
   c9_primes_amended.2 _ _ _ _ _ _ _ (fun _ l => List.Perm.refl l)
      (fun l => List.Perm.refl l) (fun l => List.Perm.refl l) (fun _ => by decide) "0.1"⟩
